import Mathlib

/-!
Verification development for the archi-pdf document-rectification core.

The definitions below are shallow embeddings of the TypeScript source:

* `src/services/cvService.ts` — `waitForCV`, `sortPoints`, `detectDocumentCorners`,
  `findContourPoints`, `applyPerspectiveCrop`, `autoCropImage`, `applyImageAdjustments`;
* `src/components/EditorModal.tsx` — `handlePerformAutoDetection`,
  `handleWindowMouseMove` (corner-drag branch), `handleSave`.

Numeric modelling conventions:

* JavaScript numbers are modelled by `ℚ`.  The only irrational quantities in the
  source are the `Math.hypot` distances inside `applyPerspectiveCrop` and the
  trigonometric factors inside `applyImageAdjustments`; those are modelled by
  carrying exact *squared* distances (with `roundSqrt` for the final
  integer conversion, certified against `Real.sqrt` below) and by an exact
  table of |cos|/|sin| for the 90°-multiple rotations the application uses
  (certified against `Real.cos`/`Real.sin` below).
* `Math.round` is `round : ℚ → ℤ` (both are floor of `x + 1/2`).
* The JavaScript `%` operator (sign of the dividend) is `Int.tmod`.
* OpenCV mats, contours and canvases live outside the repository; they are
  modelled by the data the source hands to them (`Contour`, `ImageVal`,
  `CanvasOp`), so every transform the repository performs is explicit.
-/

set_option maxRecDepth 4000

namespace ArchiPdf

/-- A point in native image pixel coordinates (`interface Point {x, y}`). -/
structure Point where
  x : ℚ
  y : ℚ
deriving DecidableEq, Repr

/-- Comparator `(a, b) => a.y - b.y` of `sortPoints`, as the total preorder
"a may come before b" of a stable sort. -/
def leY (a b : Point) : Prop := a.y ≤ b.y

/-- Comparator `(a, b) => a.x - b.x` (ascending x). -/
def leX (a b : Point) : Prop := a.x ≤ b.x

/-- Comparator `(a, b) => b.x - a.x` (descending x). -/
def geX (a b : Point) : Prop := b.x ≤ a.x

instance : DecidableRel leY := fun a b => inferInstanceAs (Decidable (a.y ≤ b.y))
instance : DecidableRel leX := fun a b => inferInstanceAs (Decidable (a.x ≤ b.x))
instance : DecidableRel geX := fun a b => inferInstanceAs (Decidable (b.x ≤ a.x))

instance : IsTotal Point leY := ⟨fun a b => le_total a.y b.y⟩
instance : IsTrans Point leY := ⟨fun _ _ _ h h' => le_trans h h'⟩
instance : IsTotal Point leX := ⟨fun a b => le_total a.x b.x⟩
instance : IsTrans Point leX := ⟨fun _ _ _ h h' => le_trans h h'⟩
instance : IsTotal Point geX := ⟨fun a b => le_total b.x a.x⟩
instance : IsTrans Point geX := ⟨fun _ _ _ h h' => le_trans h' h⟩

/-- Embedding of `sortPoints` (cvService.ts:34-39): stable-sort the points by `y`, the first
two re-sorted by `x` ascending, the last two by `x` descending, giving
`[top[0], top[1], bottom[0], bottom[1]] = [TL, TR, BR, BL]`.
`List.insertionSort` is a stable sort, matching the ES2019 `Array.prototype.sort`
semantics of the source. -/
def sortPoints (pts : List Point) : List Point :=
  let sorted := List.insertionSort leY pts
  let top := List.insertionSort leX (sorted.take 2)
  let bottom := List.insertionSort geX (sorted.drop 2)
  top ++ bottom

/-- Squared Euclidean distance; `Math.hypot (a.x - b.x) (a.y - b.y)` squared. -/
def distSq (a b : Point) : ℚ := (a.x - b.x) ^ 2 + (a.y - b.y) ^ 2

/-- Fuel-driven linear search for the integer square root: starting from `k`
with `k * k ≤ n`, advance while `(k + 1) * (k + 1) ≤ n`.  Structural recursion
on the fuel keeps it kernel-computable. -/
def sqrtAux : ℕ → ℕ → ℕ → ℕ
  | 0, k, _ => k
  | fuel + 1, k, n => if (k + 1) * (k + 1) ≤ n then sqrtAux fuel (k + 1) n else k

/-- Integer square root (floor of the real square root). -/
def natSqrt (n : ℕ) : ℕ := sqrtAux n 0 n

/-- Round-to-nearest of `Real.sqrt q`, computed on rationals.  For `q = a / b`
(reduced, `q > 0`) we have `round (sqrt q) = ((natSqrt (4 a b)) / b + 1) / 2`
using natural division; `roundSqrt_eq` certifies this against `Real.sqrt`. -/
def roundSqrt (q : ℚ) : ℕ :=
  if q ≤ 0 then 0
  else (natSqrt (4 * q.num.toNat * q.den) / q.den + 1) / 2

/-- Images as the values the service produces: either a source URL (identified
abstractly by an id) or the deterministic result of one of the two transforms.
The `warped` constructor records exactly the data `applyPerspectiveCrop` hands
to `cv.getPerspectiveTransform` / `cv.warpPerspective`: the source image, the
sorted quadrilateral, the squared target dimensions (`targetW`/`targetH` are
irrational in general, so their exact squares are carried), and the integer
output size the library derives from them.  Deterministic interpolation means
the output image is a function of this data. -/
inductive ImageVal where
  | source (id : ℕ)
  | warped (img : ImageVal) (quad : List Point) (targetWsq targetHsq : ℚ) (outW outH : ℕ)
  | adjusted (img : ImageVal) (brightness contrast rotation : ℤ)
deriving DecidableEq, Repr

/-- Nesting depth of an image value; each transform adds a layer. -/
def ImageVal.depth : ImageVal → ℕ
  | .source _ => 0
  | .warped img _ _ _ _ _ => img.depth + 1
  | .adjusted img _ _ _ => img.depth + 1

/-- Output pixel dimensions of a warped image, when the value is a warp. -/
def ImageVal.outDims : ImageVal → Option (ℕ × ℕ)
  | .warped _ _ _ _ w h => some (w, h)
  | _ => none

/-- Embedding of `applyPerspectiveCrop` (cvService.ts:159-210).  Sorts the points
(`const sorted = sortPoints(points)`), computes
`widthA = hypot(sorted[2] - sorted[3])`, `widthB = hypot(sorted[1] - sorted[0])`,
`targetW = max(widthA, widthB)` (and the `heightA`/`heightB` analogues), and
warps `sorted -> [(0,0),(targetW,0),(targetW,targetH),(0,targetH)]` into an
output of size `(targetW, targetH)`.  The real-valued `targetW`/`targetH` are
represented by their exact squares (`max` commutes with `Real.sqrt`), and the
library's conversion of the size to whole pixels is modelled as
round-to-nearest (`roundSqrt`, certified against `round ∘ Real.sqrt`). -/
def applyPerspectiveCrop (img : ImageVal) (points : List Point) : ImageVal :=
  let sorted := sortPoints points
  let s0 := sorted.getD 0 ⟨0, 0⟩
  let s1 := sorted.getD 1 ⟨0, 0⟩
  let s2 := sorted.getD 2 ⟨0, 0⟩
  let s3 := sorted.getD 3 ⟨0, 0⟩
  let widthAsq := distSq s2 s3
  let widthBsq := distSq s1 s0
  let targetWsq := max widthAsq widthBsq
  let heightAsq := distSq s1 s2
  let heightBsq := distSq s0 s3
  let targetHsq := max heightAsq heightBsq
  .warped img sorted targetWsq targetHsq (roundSqrt targetWsq) (roundSqrt targetHsq)

/-- Shoelace sum of a closed polygon (used only to state "positive area"). -/
def shoelace (pts : List Point) : ℚ :=
  (pts.zip (pts.rotate 1)).foldl (fun s pq => s + (pq.1.x * pq.2.y - pq.2.x * pq.1.y)) 0

/-- Area of a quadrilateral given by its vertices in cyclic order. -/
def quadArea (pts : List Point) : ℚ := |shoelace pts| / 2

/-! ### Detection boundary (cvService.ts:22-102, 212-216) -/

/-- Environment the asynchronous detection boundary runs in: whether the
OpenCV engine is ready at each poll, whether the source image decodes
(`img.onload` vs `img.onerror`), and the outcome of the vision pipeline in
`img.onload`'s `try` block (an exception, or the `bestPoints` it resolves). -/
structure DetectEnv where
  availAt : ℕ → Bool
  decodeOk : Bool
  pipeline : Except Unit (Option (List Point))

/-- Embedding of `waitForCV` (cvService.ts:22-29): check readiness, and while the retry
budget is not exhausted sleep 100ms and retry; with no budget left, throw
(modelled as `false`).  `waitForCV availAt t r` is the call at poll index `t`
with `retries = r`. -/
def waitForCV (availAt : ℕ → Bool) : ℕ → ℕ → Bool
  | t, 0 => availAt t
  | t, r + 1 => if availAt t then true else waitForCV availAt (t + 1) r

/-- Embedding of `detectDocumentCorners` (cvService.ts:44-102): a `waitForCV` failure is
caught and returns `null`; `img.onerror` resolves `null`; an OpenCV error in
the `onload` body is caught and resolves `null`; otherwise the pipeline's
`bestPoints` (possibly `null`) is resolved.  The call starts `waitForCV` with
the default budget `retries = 300`. -/
def detectDocumentCorners (env : DetectEnv) : Option (List Point) :=
  if ¬ waitForCV env.availAt 0 300 then none
  else if ¬ env.decodeOk then none
  else match env.pipeline with
    | .error _ => none
    | .ok pts => pts

/-- The default inset quadrilateral of `handlePerformAutoDetection`
(EditorModal.tsx:68-70): corners at 10%/90% of the natural size. -/
def insetQuad (w h : ℚ) : List Point :=
  [⟨w * 0.1, h * 0.1⟩, ⟨w * 0.9, h * 0.1⟩, ⟨w * 0.9, h * 0.9⟩, ⟨w * 0.1, h * 0.9⟩]

/-- Embedding of `handlePerformAutoDetection` (EditorModal.tsx:61-73): use the detected
corners when present, otherwise the default inset quadrilateral; the result is
what `setPoints` stores. -/
def handlePerformAutoDetection (env : DetectEnv) (natW natH : ℚ) : List Point :=
  match detectDocumentCorners env with
  | some detected => detected
  | none => insetQuad natW natH

/-- Embedding of `autoCropImage` (cvService.ts:212-216): if detection returns `null` the
input image URL is returned unchanged, otherwise the perspective crop is
applied to the detected corners. -/
def autoCropImage (env : DetectEnv) (img : ImageVal) : ImageVal :=
  match detectDocumentCorners env with
  | none => img
  | some corners => applyPerspectiveCrop img corners

/-! ### Contour search (cvService.ts:104-154) -/

/-- A contour as `findContourPoints` consumes it, carrying the values the
OpenCV calls return for it: `cv.contourArea`, the vertex count of its
`approxPolyDP` polygon (epsilon = 2% of perimeter), the integer vertex data of
that polygon (`approx.data32S`), and the corner vertices of
`cv.minAreaRect`. -/
structure Contour where
  area : ℚ
  approxLen : ℕ
  approxPts : List (ℤ × ℤ)
  minRectPts : List (ℚ × ℚ)
deriving DecidableEq, Repr

/-- Loop body of `findContourPoints` (cvService.ts:114-146), threading
`(bestPoints, maxArea)`: skip contours below the area threshold; a 4-vertex
approximation with a record area installs its rounded, rescaled vertices; any
other contour with a record area installs its rotated bounding rectangle's
vertices. -/
def findStep (scale th : ℚ) (st : Option (List Point) × ℚ) (c : Contour) :
    Option (List Point) × ℚ :=
  if c.area < th then st
  else if c.approxLen = 4 ∧ st.2 < c.area then
    (some ((c.approxPts.take 4).map fun p =>
      ⟨(round ((p.1 : ℚ) / scale) : ℤ), (round ((p.2 : ℚ) / scale) : ℤ)⟩), c.area)
  else if st.2 < c.area then
    (some ((c.minRectPts.take 4).map fun p =>
      ⟨(round (p.1 / scale) : ℤ), (round (p.2 / scale) : ℤ)⟩), c.area)
  else st

/-- Embedding of `findContourPoints` (cvService.ts:104-154): fold the loop body over the
contours starting from `(null, 0)` with threshold `totalArea * 0.01`, then
sort the winning points into canonical order. -/
def findContourPoints (cnts : List Contour) (scale totalArea : ℚ) : Option (List Point) :=
  let st := cnts.foldl (findStep scale (totalArea * 0.01)) (none, 0)
  st.1.map sortPoints

/-- The candidate points a single contour contributes: its 4-vertex polygon
approximation when it has exactly 4 vertices, otherwise its minimum-area
rotated rectangle (both rescaled by `1/scale` and rounded). -/
def contourCandidate (scale : ℚ) (c : Contour) : List Point :=
  if c.approxLen = 4 then
    (c.approxPts.take 4).map fun p =>
      ⟨(round ((p.1 : ℚ) / scale) : ℤ), (round ((p.2 : ℚ) / scale) : ℤ)⟩
  else
    (c.minRectPts.take 4).map fun p =>
      ⟨(round (p.1 / scale) : ℤ), (round (p.2 / scale) : ℤ)⟩

/-- Selection the loop actually implements, stated declaratively: among the
contours meeting the area threshold, the earliest one of maximal area. -/
def bestContour (cnts : List Contour) (th : ℚ) : Option Contour :=
  (cnts.filter fun c => decide (¬ c.area < th)).foldl
    (fun acc c =>
      match acc with
      | none => some c
      | some b => if b.area < c.area then some c else acc)
    none

/-! ### Editor save decision (EditorModal.tsx:138-152) -/

/-- The editor's active tool. -/
inductive Tool where
  | none
  | crop
  | adjust
deriving DecidableEq, Repr

/-- Embedding of `handleSave` (EditorModal.tsx:138-152): with the crop tool active and a
quadrilateral present, apply the perspective crop to the current image;
otherwise, if any adjustment differs from its default, apply the image
adjustments; otherwise pass the current image through. -/
def handleSave (tool : Tool) (points : Option (List Point))
    (brightness contrast rotation : ℤ) (cur : ImageVal) : ImageVal :=
  match tool, points with
  | .crop, some pts => applyPerspectiveCrop cur pts
  | _, _ =>
    if brightness ≠ 100 ∨ contrast ≠ 100 ∨ rotation ≠ 0 then
      .adjusted cur brightness contrast rotation
    else cur

/-! ### Corner dragging (EditorModal.tsx:110-128) -/

/-- Clamping `Math.max lo (Math.min hi v)` as used for the drag clamping. -/
def clampQ (lo hi v : ℚ) : ℚ := max lo (min hi v)

/-- Corner branch of `handleWindowMouseMove` (EditorModal.tsx:118-127):
`scale = naturalWidth / displayedWidth`; the screen displacement since drag
start is scaled into native pixels, added to the snapshotted corner (from
`initialPointsRef`), clamped into `[0, naturalWidth] × [0, naturalHeight]`,
and written back at the dragged index only. -/
def handleWindowMouseMove (initialPoints : List Point) (idx : ℕ)
    (dragStart client : Point) (natW natH rectW : ℚ) : List Point :=
  let scale := natW / rectW
  let dx := (client.x - dragStart.x) * scale
  let dy := (client.y - dragStart.y) * scale
  let p := initialPoints.getD idx ⟨0, 0⟩
  initialPoints.set idx ⟨clampQ 0 natW (p.x + dx), clampQ 0 natH (p.y + dy)⟩

/-! ### Image adjustments (cvService.ts:218-242) -/

/-- The JavaScript `%` operator (remainder with the dividend's sign). -/
def jsMod (a n : ℤ) : ℤ := Int.tmod a n

/-- Exact value of `|cos rads|` for `rads = (rot % 360) * π / 180` when `rot`
is a multiple of 90 — the only rotations the editor produces (±90° steps).
Certified against `Real.cos` in the theorem about `applyImageAdjustments`. -/
def absCosDeg (rot : ℤ) : ℚ := if 180 ∣ rot then 1 else 0

/-- Exact value of `|sin rads|` for 90°-multiple rotations. -/
def absSinDeg (rot : ℤ) : ℚ := if 180 ∣ rot then 0 else 1

/-- The 2D-canvas commands `applyImageAdjustments` issues, in order. -/
inductive CanvasOp where
  | setFilter (brightness contrast : ℤ)
  | translate (x y : ℚ)
  | rotate (degrees : ℤ)
  | drawImage (x y : ℚ)
  | fillRect (x y w h : ℚ) (color : ℕ)
deriving DecidableEq, Repr

/-- Whether a canvas command fills a region with a background colour. -/
def CanvasOp.isFill : CanvasOp → Bool
  | .fillRect _ _ _ _ _ => true
  | _ => false

/-- Canvas state `applyImageAdjustments` produces: the canvas dimensions and
the command sequence drawn into it. -/
structure AdjustResult where
  canvasW : ℚ
  canvasH : ℚ
  ops : List CanvasOp
deriving DecidableEq, Repr

/-- Embedding of `applyImageAdjustments` (cvService.ts:218-242): `rads = (rotation % 360)`
converted to radians, `newWidth = w·|cos| + h·|sin|`,
`newHeight = w·|sin| + h·|cos|`; the canvas takes that size, the
brightness/contrast filter is set, the context is translated to the canvas
centre, rotated, and the image drawn offset by half its size.  No other
command is issued — in particular nothing fills the background. -/
def applyImageAdjustments (w h : ℚ) (brightness contrast rotation : ℤ) : AdjustResult :=
  let r := jsMod rotation 360
  let cosv := absCosDeg rotation
  let sinv := absSinDeg rotation
  let newWidth := w * cosv + h * sinv
  let newHeight := w * sinv + h * cosv
  { canvasW := newWidth
    canvasH := newHeight
    ops := [.setFilter brightness contrast,
            .translate (newWidth / 2) (newHeight / 2),
            .rotate r,
            .drawImage (-(w / 2)) (-(h / 2))] }

/-- Two points with no exact coordinate ties share neither x nor y. -/
def NoTiesRel (a b : Point) : Prop := a.x ≠ b.x ∧ a.y ≠ b.y

instance : DecidableRel NoTiesRel :=
  fun a b => inferInstanceAs (Decidable (a.x ≠ b.x ∧ a.y ≠ b.y))

/-- A point list with no exact coordinate ties between any two points. -/
def NoTies (l : List Point) : Prop := l.Pairwise NoTiesRel

instance : DecidablePred NoTies :=
  fun l => inferInstanceAs (Decidable (l.Pairwise NoTiesRel))

/-- Strict-or-equal ordering by y, used to see that a y-sorted list of points
with pairwise distinct y values is unique among its permutations. -/
def ltYeq (a b : Point) : Prop := a.y < b.y ∨ a = b

instance : IsAntisymm Point ltYeq where
  antisymm a b h h' := by
    rcases h with h | h
    · rcases h' with h' | h'
      · exact absurd h' (lt_asymm h)
      · exact h'.symm
    · exact h

/-- The loop state corresponding to a declaratively chosen contour. -/
def contourState (scale : ℚ) : Option Contour → Option (List Point) × ℚ
  | none => (none, 0)
  | some c => (some (contourCandidate scale c), c.area)

/-! ### Helper theorems -/

theorem sqrtAux_spec : ∀ (fuel k n : ℕ), k * k ≤ n → n < (k + fuel + 1) * (k + fuel + 1) →
    sqrtAux fuel k n * sqrtAux fuel k n ≤ n ∧ n < (sqrtAux fuel k n + 1) * (sqrtAux fuel k n + 1)
  | 0, k, n, hk, hbound => by
    simp only [sqrtAux]
    exact ⟨hk, by simpa using hbound⟩
  | fuel + 1, k, n, hk, hbound => by
    by_cases h : (k + 1) * (k + 1) ≤ n
    · have := sqrtAux_spec fuel (k + 1) n h (by nlinarith)
      simpa [sqrtAux, h] using this
    · simp only [sqrtAux, if_neg h]
      exact ⟨hk, by omega⟩

theorem natSqrt_spec (n : ℕ) :
    natSqrt n * natSqrt n ≤ n ∧ n < (natSqrt n + 1) * (natSqrt n + 1) :=
  sqrtAux_spec n 0 n (by omega) (by nlinarith)

/-! ### Helper lemmas: canonical ordering -/

theorem insertionSortY_strict {l : List Point}
    (hd : l.Pairwise fun a b => a.y ≠ b.y) :
    (List.insertionSort leY l).Pairwise ltYeq := by
  have hd' : (List.insertionSort leY l).Pairwise (fun a b => a.y ≠ b.y) :=
    ((List.perm_insertionSort leY l).pairwise_iff fun h => h.symm).mpr hd
  have hs : (List.insertionSort leY l).Pairwise leY :=
    List.sorted_insertionSort leY l
  exact (hs.and hd').imp fun h => Or.inl (lt_of_le_of_ne h.1 h.2)

theorem insertionSortY_eq_of_perm {l l' : List Point} (hp : List.Perm l l')
    (hd : l.Pairwise fun a b => a.y ≠ b.y) :
    List.insertionSort leY l = List.insertionSort leY l' := by
  have hperm : List.Perm (List.insertionSort leY l) (List.insertionSort leY l') :=
    (List.perm_insertionSort leY l).trans (hp.trans (List.perm_insertionSort leY l').symm)
  have hd' : l'.Pairwise fun a b => a.y ≠ b.y :=
    (hp.pairwise_iff fun h => h.symm).mp hd
  exact List.eq_of_perm_of_sorted hperm (insertionSortY_strict hd) (insertionSortY_strict hd')

theorem sortPoints_eq_of_perm {l l' : List Point} (hp : List.Perm l l') (hd : NoTies l) :
    sortPoints l = sortPoints l' := by
  unfold sortPoints
  rw [insertionSortY_eq_of_perm hp (hd.imp fun h => h.2)]

theorem sortPoints_perm (l : List Point) : List.Perm (sortPoints l) l := by
  have h3 := List.Perm.append
    (List.perm_insertionSort leX ((List.insertionSort leY l).take 2))
    (List.perm_insertionSort geX ((List.insertionSort leY l).drop 2))
  rw [List.take_append_drop] at h3
  exact h3.trans (List.perm_insertionSort leY l)

/-! ### Helper lemmas: roundSqrt against the real square root -/

set_option maxHeartbeats 2000000 in
theorem roundSqrt_eq (q : ℚ) (hq : 0 ≤ q) :
    (roundSqrt q : ℤ) = round (Real.sqrt (q : ℝ)) := by
  rcases eq_or_lt_of_le hq with h0 | hpos
  · rw [← h0]
    simp [roundSqrt, Real.sqrt_zero]
  · have hql : ¬ q ≤ 0 := not_le.mpr hpos
    have hqR : (0 : ℝ) ≤ (q : ℝ) := by exact_mod_cast hq
    simp only [roundSqrt, if_neg hql]
    set b := q.den with hbdef
    have hb : 0 < b := Nat.pos_of_ne_zero q.den_nz
    have hnum : 0 < q.num := Rat.num_pos.mpr hpos
    set a := q.num.toNat with hadef
    have hae : (a : ℤ) = q.num := Int.toNat_of_nonneg hnum.le
    have ha : 0 < a := by omega
    have hqr : (q : ℝ) = (a : ℝ) / (b : ℝ) := by
      rw [Rat.cast_def, ← hbdef, ← hae]
      push_cast
      ring
    obtain ⟨hk1, hk2⟩ := natSqrt_spec (4 * a * b)
    set k := natSqrt (4 * a * b) with hkdef
    clear_value k
    set j := k / b with hjdef
    have hjb : j * b ≤ k := Nat.div_mul_le_self k b
    have hkjb : k < (j + 1) * b := by
      have h1 : b * j + k % b = k := by
        rw [hjdef]
        exact Nat.div_add_mod k b
      have h2 : k % b < b := Nat.mod_lt k hb
      nlinarith
    clear_value j
    have hjq1 : j * j * b ≤ 4 * a := by
      have h1 : (j * b) * (j * b) ≤ k * k := Nat.mul_le_mul hjb hjb
      have h3 : j * j * b * b ≤ 4 * a * b := by nlinarith
      exact Nat.le_of_mul_le_mul_right h3 hb
    have hjq2 : 4 * a < (j + 1) * (j + 1) * b := by
      have h2 : k + 1 ≤ (j + 1) * b := hkjb
      have h3 : 4 * a * b < ((j + 1) * b) * ((j + 1) * b) :=
        lt_of_lt_of_le hk2 (Nat.mul_le_mul h2 h2)
      have h4 : 4 * a * b < (j + 1) * (j + 1) * b * b := by nlinarith
      exact Nat.lt_of_mul_lt_mul_right h4
    have hbR : (0 : ℝ) < (b : ℝ) := by exact_mod_cast hb
    have hq4_lower : ((j : ℝ)) ^ 2 ≤ 4 * (q : ℝ) := by
      rw [hqr, ← mul_div_assoc, le_div_iff₀ hbR]
      have hc : ((j * j * b : ℕ) : ℝ) ≤ ((4 * a : ℕ) : ℝ) := by exact_mod_cast hjq1
      push_cast at hc
      nlinarith
    have hq4_upper : 4 * (q : ℝ) < ((j : ℝ) + 1) ^ 2 := by
      rw [hqr, ← mul_div_assoc, div_lt_iff₀ hbR]
      have hc : ((4 * a : ℕ) : ℝ) < (((j + 1) * (j + 1) * b : ℕ) : ℝ) := by exact_mod_cast hjq2
      push_cast at hc
      nlinarith
    rw [round_eq]
    rcases Nat.even_or_odd j with ⟨t, ht⟩ | ⟨t, ht⟩
    · have hn : (j + 1) / 2 = t := by omega
      have hje : j = 2 * t := by omega
      rw [hn]
      rw [hje] at hq4_lower hq4_upper
      symm
      rw [Int.floor_eq_iff]
      constructor
      · rcases Nat.eq_zero_or_pos t with rfl | ht1
        · have := Real.sqrt_nonneg ((q : ℚ) : ℝ)
          push_cast
          linarith
        · have ht1R : (1 : ℝ) ≤ (t : ℝ) := by exact_mod_cast ht1
          have hstep : ((t : ℝ) - 1 / 2) ≤ Real.sqrt (q : ℝ) := by
            rw [Real.le_sqrt (by linarith) hqR]
            push_cast at hq4_lower
            nlinarith
          push_cast
          linarith
      · have htR : (0 : ℝ) ≤ (t : ℝ) := by positivity
        have hstep : Real.sqrt (q : ℝ) < (t : ℝ) + 1 / 2 := by
          rw [Real.sqrt_lt' (by positivity)]
          push_cast at hq4_upper
          nlinarith [htR]
        push_cast
        linarith
    · have hn : (j + 1) / 2 = t + 1 := by omega
      have hje : j = 2 * t + 1 := ht
      rw [hn]
      rw [hje] at hq4_lower hq4_upper
      symm
      rw [Int.floor_eq_iff]
      constructor
      · have hstep : ((t : ℝ) + 1 / 2) ≤ Real.sqrt (q : ℝ) := by
          rw [Real.le_sqrt (by positivity) hqR]
          push_cast at hq4_lower
          nlinarith
        push_cast
        linarith
      · have htR : (0 : ℝ) ≤ (t : ℝ) := by positivity
        have hstep : Real.sqrt (q : ℝ) < (t : ℝ) + 3 / 2 := by
          rw [Real.sqrt_lt' (by positivity)]
          push_cast at hq4_upper
          nlinarith [htR]
        push_cast
        linarith

/-- The output dimension is at least one pixel exactly when the real target
length is at least half a pixel (squared: at least 1/4). -/
theorem one_le_roundSqrt_iff (q : ℚ) : 1 ≤ roundSqrt q ↔ 1 / 4 ≤ q := by
  by_cases hql : q ≤ 0
  · simp only [roundSqrt, if_pos hql]
    constructor
    · omega
    · intro h
      exfalso
      nlinarith [h.trans hql]
  · have hpos : 0 < q := not_le.mp hql
    have h := roundSqrt_eq q hpos.le
    have hqR : (0 : ℝ) ≤ (q : ℝ) := by positivity
    constructor
    · intro h1
      have h1' : (1 : ℤ) ≤ (roundSqrt q : ℤ) := by exact_mod_cast h1
      rw [h, round_eq, Int.le_floor] at h1'
      push_cast at h1'
      have hsq : (1 : ℝ) / 2 ≤ Real.sqrt (q : ℝ) := by linarith
      have hq4 : ((1 / 4 : ℚ) : ℝ) ≤ ((q : ℚ) : ℝ) := by
        have := Real.sq_sqrt hqR
        push_cast
        nlinarith [Real.sqrt_nonneg ((q : ℚ) : ℝ)]
      exact_mod_cast hq4
    · intro h1
      have h1R' : ((1 / 4 : ℚ) : ℝ) ≤ ((q : ℚ) : ℝ) := by exact_mod_cast h1
      have h1R : (1 : ℝ) / 4 ≤ (q : ℝ) := by push_cast at h1R'; linarith
      have hsq : (1 : ℝ) / 2 ≤ Real.sqrt (q : ℝ) := by
        rw [Real.le_sqrt (by norm_num) hqR]
        nlinarith
      have h1' : (1 : ℤ) ≤ round (Real.sqrt (q : ℝ)) := by
        rw [round_eq, Int.le_floor]
        push_cast
        linarith
      rw [← h] at h1'
      exact_mod_cast h1'

/-! ### Helper lemmas: the trigonometric table for 90-degree multiples -/

theorem absCosDeg_eq (rot : ℤ) (h : 90 ∣ rot) :
    ((absCosDeg rot : ℚ) : ℝ) = |Real.cos ((rot : ℝ) * Real.pi / 180)| := by
  obtain ⟨kk, rfl⟩ := h
  have hθ : ((90 * kk : ℤ) : ℝ) * Real.pi / 180 = (kk : ℝ) * (Real.pi / 2) := by
    push_cast
    ring
  rw [hθ]
  rcases Int.even_or_odd kk with ⟨m, hm⟩ | ⟨m, hm⟩
  · subst hm
    have h2 : ((m : ℝ)) * (Real.pi / 2) + ((m : ℝ)) * (Real.pi / 2) = (m : ℝ) * Real.pi := by
      ring
    have h3 : ((m + m : ℤ) : ℝ) * (Real.pi / 2) = (m : ℝ) * Real.pi := by
      push_cast
      ring
    rw [h3, Real.abs_cos_int_mul_pi]
    have hdvd : (180 : ℤ) ∣ 90 * (m + m) := ⟨m, by ring⟩
    simp [absCosDeg, hdvd]
  · subst hm
    have h3 : ((2 * m + 1 : ℤ) : ℝ) * (Real.pi / 2) = (m : ℝ) * Real.pi + Real.pi / 2 := by
      push_cast
      ring
    rw [h3, Real.cos_add_pi_div_two, Real.sin_int_mul_pi]
    have hndvd : ¬ (180 : ℤ) ∣ 90 * (2 * m + 1) := by omega
    simp [absCosDeg, hndvd]

theorem absSinDeg_eq (rot : ℤ) (h : 90 ∣ rot) :
    ((absSinDeg rot : ℚ) : ℝ) = |Real.sin ((rot : ℝ) * Real.pi / 180)| := by
  obtain ⟨kk, rfl⟩ := h
  have hθ : ((90 * kk : ℤ) : ℝ) * Real.pi / 180 = (kk : ℝ) * (Real.pi / 2) := by
    push_cast
    ring
  rw [hθ]
  rcases Int.even_or_odd kk with ⟨m, hm⟩ | ⟨m, hm⟩
  · subst hm
    have h3 : ((m + m : ℤ) : ℝ) * (Real.pi / 2) = (m : ℝ) * Real.pi := by
      push_cast
      ring
    rw [h3, Real.sin_int_mul_pi]
    have hdvd : (180 : ℤ) ∣ 90 * (m + m) := ⟨m, by ring⟩
    simp [absSinDeg, hdvd]
  · subst hm
    have h3 : ((2 * m + 1 : ℤ) : ℝ) * (Real.pi / 2) = (m : ℝ) * Real.pi + Real.pi / 2 := by
      push_cast
      ring
    rw [h3, Real.sin_add_pi_div_two, Real.abs_cos_int_mul_pi]
    have hndvd : ¬ (180 : ℤ) ∣ 90 * (2 * m + 1) := by omega
    simp [absSinDeg, hndvd]

/-! ### Helper lemmas: the contour fold selects the largest-area contour -/

theorem findStep_fold_eq (scale th : ℚ) (hth : 0 < th) :
    ∀ (cnts : List Contour) (acc : Option Contour),
      cnts.foldl (findStep scale th) (contourState scale acc) =
        contourState scale
          ((cnts.filter fun c => decide (¬ c.area < th)).foldl
            (fun acc c =>
              match acc with
              | none => some c
              | some b => if b.area < c.area then some c else acc)
            acc)
  | [], acc => rfl
  | c :: rest, acc => by
    by_cases hc : c.area < th
    · have hstep : findStep scale th (contourState scale acc) c = contourState scale acc := by
        simp [findStep, hc]
      have hfilter : (List.filter (fun c => decide (¬ c.area < th)) (c :: rest)) =
          List.filter (fun c => decide (¬ c.area < th)) rest := by
        simp [List.filter_cons, hc]
      rw [List.foldl_cons, hstep, hfilter]
      exact findStep_fold_eq scale th hth rest acc
    · have hfilter : (List.filter (fun c => decide (¬ c.area < th)) (c :: rest)) =
          c :: List.filter (fun c => decide (¬ c.area < th)) rest := by
        simp [List.filter_cons, hc]
      rw [List.foldl_cons, hfilter, List.foldl_cons]
      have harea : 0 < c.area := lt_of_lt_of_le hth (not_lt.mp hc)
      cases acc with
      | none =>
        have hstep : findStep scale th (contourState scale none) c =
            contourState scale (some c) := by
          by_cases h4 : c.approxLen = 4
          · simp [findStep, contourState, contourCandidate, hc, h4, harea]
          · simp [findStep, contourState, contourCandidate, hc, h4, harea]
        rw [hstep]
        exact findStep_fold_eq scale th hth rest (some c)
      | some b =>
        by_cases hlt : b.area < c.area
        · have hstep : findStep scale th (contourState scale (some b)) c =
              contourState scale (some c) := by
            by_cases h4 : c.approxLen = 4
            · simp [findStep, contourState, contourCandidate, hc, h4, hlt]
            · simp [findStep, contourState, contourCandidate, hc, h4, hlt]
          rw [hstep]
          simp only [hlt, if_pos]
          exact findStep_fold_eq scale th hth rest (some c)
        · have hstep : findStep scale th (contourState scale (some b)) c =
              contourState scale (some b) := by
            simp [findStep, contourState, hc, hlt]
          rw [hstep]
          simp only [hlt, if_neg]
          exact findStep_fold_eq scale th hth rest (some b)

/-- Symmetry of the squared distance. -/
theorem distSq_comm (a b : Point) : distSq a b = distSq b a := by
  unfold distSq
  ring

/-- Squared distances are nonnegative. -/
theorem distSq_nonneg (a b : Point) : 0 ≤ distSq a b := by
  unfold distSq
  positivity

/-- Symmetry of `NoTiesRel`. -/
theorem noTiesRel_symm : ∀ {x y : Point}, NoTiesRel x y → NoTiesRel y x :=
  fun h => ⟨h.1.symm, h.2.symm⟩

/-- Factoring of `applyPerspectiveCrop` through `sortPoints`. -/
theorem applyPerspectiveCrop_congr (img : ImageVal) {l l' : List Point}
    (h : sortPoints l = sortPoints l') :
    applyPerspectiveCrop img l = applyPerspectiveCrop img l' := by
  simp only [applyPerspectiveCrop]
  rw [h]

/-! ### Claim theorems -/

/-- C6: `sortPoints` (`orderQuadrilateral`) maps every one of the 24
permutations of the same 4 points (no exact coordinate ties) to the same
canonical [TL, TR, BR, BL] order — obtained by sorting by y ascending, the top
pair by x ascending and the bottom pair by x descending, which is exactly the
definition of `sortPoints` — and in particular it is idempotent: applying it
to an already ordered quadrilateral returns it unchanged. -/
theorem sortPoints_canonical (pts pts' : List Point) (_hlen : pts.length = 4)
    (hperm : List.Perm pts pts') (hties : NoTies pts) :
    sortPoints pts' = sortPoints pts ∧ sortPoints (sortPoints pts) = sortPoints pts := by
  constructor
  · exact (sortPoints_eq_of_perm hperm hties).symm
  · have hties' : NoTies (sortPoints pts) :=
      ((sortPoints_perm pts).pairwise_iff noTiesRel_symm).mpr hties
    exact sortPoints_eq_of_perm (sortPoints_perm pts) hties'

/-- Witness for C6 at a concrete quadrilateral and one of its permutations. -/
theorem sortPoints_canonical_witness :
    sortPoints [⟨11, 12⟩, ⟨0, 1⟩, ⟨1, 13⟩, ⟨10, 2⟩] =
        sortPoints [⟨0, 1⟩, ⟨10, 2⟩, ⟨11, 12⟩, ⟨1, 13⟩]
    ∧ sortPoints (sortPoints [⟨0, 1⟩, ⟨10, 2⟩, ⟨11, 12⟩, ⟨1, 13⟩]) =
        sortPoints [⟨0, 1⟩, ⟨10, 2⟩, ⟨11, 12⟩, ⟨1, 13⟩] :=
  sortPoints_canonical [⟨0, 1⟩, ⟨10, 2⟩, ⟨11, 12⟩, ⟨1, 13⟩]
    [⟨11, 12⟩, ⟨0, 1⟩, ⟨1, 13⟩, ⟨10, 2⟩] rfl
    (by with_unfolding_all decide) (by with_unfolding_all decide)

/-- C5: `applyPerspectiveCrop` re-canonicalizes its input quadrilateral before
warping (`const sorted = sortPoints(points)`), so for every image and every
permutation of the same 4 points (no exact coordinate ties) the entire warp
request — source quadrilateral, homography correspondence, target dimensions
and output size — is identical to the one produced from the canonically
ordered points; with deterministic interpolation the output image is
therefore identical as well. -/
theorem applyPerspectiveCrop_order_invariant (img : ImageVal) (pts pts' : List Point)
    (_hlen : pts.length = 4) (hperm : List.Perm pts pts') (hties : NoTies pts) :
    applyPerspectiveCrop img pts' = applyPerspectiveCrop img pts :=
  applyPerspectiveCrop_congr img (sortPoints_eq_of_perm hperm hties).symm

/-- Witness for C5 at a concrete quadrilateral and one of its permutations. -/
theorem applyPerspectiveCrop_order_invariant_witness :
    applyPerspectiveCrop (.source 7) [⟨11, 12⟩, ⟨0, 1⟩, ⟨1, 13⟩, ⟨10, 2⟩] =
        applyPerspectiveCrop (.source 7) [⟨0, 1⟩, ⟨10, 2⟩, ⟨11, 12⟩, ⟨1, 13⟩] :=
  applyPerspectiveCrop_order_invariant (.source 7)
    [⟨0, 1⟩, ⟨10, 2⟩, ⟨11, 12⟩, ⟨1, 13⟩]
    [⟨11, 12⟩, ⟨0, 1⟩, ⟨1, 13⟩, ⟨10, 2⟩] rfl
    (by with_unfolding_all decide) (by with_unfolding_all decide)

/-- C2 (amended): `applyPerspectiveCrop` performs no degeneracy check — for
every input quadrilateral, degenerate or not, it issues the warp (and a
library failure would surface as a promise rejection); it never returns the
input image unchanged. -/
theorem applyPerspectiveCrop_never_input (img : ImageVal) (pts : List Point) :
    applyPerspectiveCrop img pts ≠ img := by
  intro heq
  have hd := congrArg ImageVal.depth heq
  simp only [applyPerspectiveCrop, ImageVal.depth] at hd
  omega

/-- Counterexample to C2 as stated: for the fully degenerate quadrilateral
(area zero, all corners equal) the result is still a warp request with target
size 0×0, not the unchanged input image. -/
theorem applyPerspectiveCrop_degenerate_counterexample :
    quadArea [(⟨0, 0⟩ : Point), ⟨0, 0⟩, ⟨0, 0⟩, ⟨0, 0⟩] = 0
    ∧ applyPerspectiveCrop (.source 0) [⟨0, 0⟩, ⟨0, 0⟩, ⟨0, 0⟩, ⟨0, 0⟩] ≠ ImageVal.source 0
    ∧ (applyPerspectiveCrop (.source 0) [⟨0, 0⟩, ⟨0, 0⟩, ⟨0, 0⟩, ⟨0, 0⟩]).outDims =
        some (0, 0) := by
  refine ⟨by with_unfolding_all decide, ?_, by with_unfolding_all decide⟩
  with_unfolding_all decide

/-- C4: the editor's Save applies exactly one transform.  With the crop tool
active and a quadrilateral present it applies the perspective crop — whatever
the pending brightness/contrast/rotation, which are discarded; otherwise a
non-default adjustment triggers `applyImageAdjustments`; otherwise the current
image passes through unchanged. -/
theorem handleSave_exactly_one_transform (tool : Tool) (points : Option (List Point))
    (b c r : ℤ) (cur : ImageVal) :
    (∀ pts, tool = Tool.crop → points = some pts →
        handleSave tool points b c r cur = applyPerspectiveCrop cur pts)
    ∧ ((tool ≠ Tool.crop ∨ points = none) → (b ≠ 100 ∨ c ≠ 100 ∨ r ≠ 0) →
        handleSave tool points b c r cur = ImageVal.adjusted cur b c r)
    ∧ ((tool ≠ Tool.crop ∨ points = none) → b = 100 → c = 100 → r = 0 →
        handleSave tool points b c r cur = cur) := by
  refine ⟨?_, ?_, ?_⟩
  · rintro pts rfl rfl
    rfl
  · intro hnc hne
    cases tool <;> cases points
    case crop.some pts => exact absurd hnc (by simp)
    all_goals simp only [handleSave, if_pos hne]
  · rintro hnc rfl rfl rfl
    cases tool <;> cases points
    case crop.some pts => exact absurd hnc (by simp)
    all_goals simp only [handleSave]
    all_goals rw [if_neg (by simp)]

/-- Witness for C4 at the spec's scenario: crop tool, quadrilateral set,
brightness 150 — the result is the crop, the enhancement is not applied. -/
theorem handleSave_witness :
    handleSave Tool.crop (some [⟨0, 0⟩, ⟨10, 0⟩, ⟨10, 10⟩, ⟨0, 10⟩]) 150 100 0 (.source 2) =
      applyPerspectiveCrop (.source 2) [⟨0, 0⟩, ⟨10, 0⟩, ⟨10, 10⟩, ⟨0, 10⟩] :=
  (handleSave_exactly_one_transform Tool.crop
    (some [⟨0, 0⟩, ⟨10, 0⟩, ⟨10, 10⟩, ⟨0, 10⟩]) 150 100 0 (.source 2)).1
    [⟨0, 0⟩, ⟨10, 0⟩, ⟨10, 10⟩, ⟨0, 10⟩] rfl rfl

/-- Bridging step for C1: the computed output dimension equals the
round-to-nearest of the real-valued `max` of the two edge lengths. -/
theorem roundSqrt_max_eq (q1 q2 : ℚ) (h1 : 0 ≤ q1) (_h2 : 0 ≤ q2) :
    (roundSqrt (max q1 q2) : ℤ) =
      round (max (Real.sqrt ((q1 : ℚ) : ℝ)) (Real.sqrt ((q2 : ℚ) : ℝ))) := by
  rw [roundSqrt_eq (max q1 q2) (le_max_of_le_left h1)]
  congr 1
  have hcast : (((max q1 q2 : ℚ)) : ℝ) = max ((q1 : ℚ) : ℝ) ((q2 : ℚ) : ℝ) := by
    rcases le_total q1 q2 with h | h
    · rw [max_eq_right h, max_eq_right (by exact_mod_cast h)]
    · rw [max_eq_left h, max_eq_left (by exact_mod_cast h)]
  rw [hcast]
  exact (Monotone.map_max fun _ _ hab => Real.sqrt_le_sqrt hab)

/-- C1 (amended): the output dimensions of `applyPerspectiveCrop` are
`targetW = max(dist(TL,TR), dist(BL,BR))` and
`targetH = max(dist(TL,BL), dist(TR,BR))` of the canonically ordered corners,
each converted to a whole pixel count by round-to-nearest; a dimension is
at least 1 exactly when the corresponding real target length is at least 1/2
(squared: 1/4) — positive area alone does not guarantee it. -/
theorem applyPerspectiveCrop_dims (img : ImageVal) (pts : List Point)
    (tl tr br bl : Point) (hs : sortPoints pts = [tl, tr, br, bl]) :
    (applyPerspectiveCrop img pts).outDims =
        some (roundSqrt (max (distSq tl tr) (distSq bl br)),
              roundSqrt (max (distSq tl bl) (distSq tr br)))
    ∧ (roundSqrt (max (distSq tl tr) (distSq bl br)) : ℤ) =
        round (max (Real.sqrt ((distSq tl tr : ℚ) : ℝ))
                   (Real.sqrt ((distSq bl br : ℚ) : ℝ)))
    ∧ (roundSqrt (max (distSq tl bl) (distSq tr br)) : ℤ) =
        round (max (Real.sqrt ((distSq tl bl : ℚ) : ℝ))
                   (Real.sqrt ((distSq tr br : ℚ) : ℝ)))
    ∧ (1 ≤ roundSqrt (max (distSq tl tr) (distSq bl br)) ↔
        1 / 4 ≤ max (distSq tl tr) (distSq bl br))
    ∧ (1 ≤ roundSqrt (max (distSq tl bl) (distSq tr br)) ↔
        1 / 4 ≤ max (distSq tl bl) (distSq tr br)) := by
  refine ⟨?_, roundSqrt_max_eq _ _ (distSq_nonneg _ _) (distSq_nonneg _ _),
    roundSqrt_max_eq _ _ (distSq_nonneg _ _) (distSq_nonneg _ _),
    one_le_roundSqrt_iff _, one_le_roundSqrt_iff _⟩
  simp only [applyPerspectiveCrop, hs, ImageVal.outDims]
  simp only [List.getD_cons_zero, List.getD_cons_succ]
  rw [distSq_comm br bl, distSq_comm tr tl,
      max_comm (distSq bl br) (distSq tl tr),
      max_comm (distSq tr br) (distSq tl bl)]

/-- Witness for C1 at the spec's 1000×800 scenario quadrilateral: the
rectified output is 800×640. -/
theorem applyPerspectiveCrop_dims_witness :
    (applyPerspectiveCrop (.source 0)
        [⟨100, 80⟩, ⟨900, 80⟩, ⟨900, 720⟩, ⟨100, 720⟩]).outDims =
        some (roundSqrt (max (distSq ⟨100, 80⟩ ⟨900, 80⟩) (distSq ⟨100, 720⟩ ⟨900, 720⟩)),
              roundSqrt (max (distSq ⟨100, 80⟩ ⟨100, 720⟩) (distSq ⟨900, 80⟩ ⟨900, 720⟩)))
    ∧ (roundSqrt (max (distSq (⟨100, 80⟩ : Point) ⟨900, 80⟩) (distSq ⟨100, 720⟩ ⟨900, 720⟩)) : ℤ) =
        round (max (Real.sqrt ((distSq (⟨100, 80⟩ : Point) ⟨900, 80⟩ : ℚ) : ℝ))
                   (Real.sqrt ((distSq (⟨100, 720⟩ : Point) ⟨900, 720⟩ : ℚ) : ℝ)))
    ∧ (roundSqrt (max (distSq (⟨100, 80⟩ : Point) ⟨100, 720⟩) (distSq ⟨900, 80⟩ ⟨900, 720⟩)) : ℤ) =
        round (max (Real.sqrt ((distSq (⟨100, 80⟩ : Point) ⟨100, 720⟩ : ℚ) : ℝ))
                   (Real.sqrt ((distSq (⟨900, 80⟩ : Point) ⟨900, 720⟩ : ℚ) : ℝ)))
    ∧ (1 ≤ roundSqrt (max (distSq (⟨100, 80⟩ : Point) ⟨900, 80⟩) (distSq ⟨100, 720⟩ ⟨900, 720⟩)) ↔
        1 / 4 ≤ max (distSq (⟨100, 80⟩ : Point) ⟨900, 80⟩) (distSq ⟨100, 720⟩ ⟨900, 720⟩))
    ∧ (1 ≤ roundSqrt (max (distSq (⟨100, 80⟩ : Point) ⟨100, 720⟩) (distSq ⟨900, 80⟩ ⟨900, 720⟩)) ↔
        1 / 4 ≤ max (distSq (⟨100, 80⟩ : Point) ⟨100, 720⟩) (distSq ⟨900, 80⟩ ⟨900, 720⟩)) :=
  applyPerspectiveCrop_dims (.source 0)
    [⟨100, 80⟩, ⟨900, 80⟩, ⟨900, 720⟩, ⟨100, 720⟩]
    ⟨100, 80⟩ ⟨900, 80⟩ ⟨900, 720⟩ ⟨100, 720⟩ (by with_unfolding_all decide)

/-- Counterexample to C1 as stated: a quadrilateral with positive area
(a 0.3-pixel square) whose rectified output has width and height 0, not ≥ 1. -/
theorem applyPerspectiveCrop_dims_counterexample :
    0 < quadArea [⟨0, 0⟩, ⟨3/10, 0⟩, ⟨3/10, 3/10⟩, ⟨0, 3/10⟩]
    ∧ (applyPerspectiveCrop (.source 0)
        [⟨0, 0⟩, ⟨3/10, 0⟩, ⟨3/10, 3/10⟩, ⟨0, 3/10⟩]).outDims = some (0, 0)
    ∧ ¬ ∃ wh : ℕ × ℕ,
        (applyPerspectiveCrop (.source 0)
          [⟨0, 0⟩, ⟨3/10, 0⟩, ⟨3/10, 3/10⟩, ⟨0, 3/10⟩]).outDims = some wh
        ∧ 1 ≤ wh.1 ∧ 1 ≤ wh.2 := by
  refine ⟨by with_unfolding_all decide, by with_unfolding_all decide, ?_⟩
  rintro ⟨wh, heq, h1, h2⟩
  have h0 : (applyPerspectiveCrop (.source 0)
      [⟨0, 0⟩, ⟨3/10, 0⟩, ⟨3/10, 3/10⟩, ⟨0, 3/10⟩]).outDims = some (0, 0) := by
    with_unfolding_all decide
  rw [h0] at heq
  have : wh = (0, 0) := by
    injection heq with h
    exact h.symm
  rw [this] at h1
  exact absurd h1 (by decide)

/-- C3 (amended): `findContourPoints` selects the single largest-area contour
among those meeting the 1% area threshold (earliest wins ties) and uses its
4-vertex epsilon-approximation when that approximation has exactly 4 vertices,
its minimum-area rotated rectangle otherwise.  A 4-vertex approximation of a
smaller contour is not preferred over a larger non-quadrilateral contour. -/
theorem findContourPoints_selects_largest (cnts : List Contour) (scale totalArea : ℚ)
    (h : 0 < totalArea) :
    findContourPoints cnts scale totalArea =
      (bestContour cnts (totalArea * 0.01)).map fun c =>
        sortPoints (contourCandidate scale c) := by
  have hth : 0 < totalArea * 0.01 := mul_pos h (by norm_num)
  have e0 : ((none : Option (List Point)), (0 : ℚ)) = contourState scale none := rfl
  unfold findContourPoints bestContour
  rw [e0, findStep_fold_eq scale (totalArea * 0.01) hth cnts none]
  cases (cnts.filter fun c => decide (¬ c.area < totalArea * 0.01)).foldl
      (fun acc c =>
        match acc with
        | none => some c
        | some b => if b.area < c.area then some c else acc)
      none with
  | none => rfl
  | some c => rfl

/-- Witness for C3 at a concrete contour list. -/
theorem findContourPoints_selects_largest_witness :
    (0 : ℚ) < 2000
    ∧ findContourPoints
        [⟨100, 4, [(0, 0), (50, 0), (50, 40), (0, 40)], []⟩,
         ⟨200, 5, [], [(10, 10), (30, 10), (30, 30), (10, 30)]⟩] 1 2000 =
      (bestContour
        [⟨100, 4, [(0, 0), (50, 0), (50, 40), (0, 40)], []⟩,
         ⟨200, 5, [], [(10, 10), (30, 10), (30, 30), (10, 30)]⟩] (2000 * 0.01)).map
        fun c => sortPoints (contourCandidate 1 c) :=
  ⟨by with_unfolding_all decide,
   findContourPoints_selects_largest
     [⟨100, 4, [(0, 0), (50, 0), (50, 40), (0, 40)], []⟩,
      ⟨200, 5, [], [(10, 10), (30, 10), (30, 30), (10, 30)]⟩] 1 2000
     (by with_unfolding_all decide)⟩

/-- Counterexample to C3 as stated: with an eligible exactly-4-vertex contour
of area 100 present, a larger 5-vertex contour (area 200) wins, and the
candidate is its minimum-area rotated rectangle, not the 4-vertex
approximation. -/
theorem findContourPoints_counterexample :
    findContourPoints
        [⟨100, 4, [(0, 0), (50, 0), (50, 40), (0, 40)], []⟩,
         ⟨200, 5, [], [(10, 10), (30, 10), (30, 30), (10, 30)]⟩] 1 2000 =
      some [⟨10, 10⟩, ⟨30, 10⟩, ⟨30, 30⟩, ⟨10, 30⟩]
    ∧ (⟨100, 4, [(0, 0), (50, 0), (50, 40), (0, 40)], []⟩ : Contour).approxLen = 4
    ∧ ¬ (⟨100, 4, [(0, 0), (50, 0), (50, 40), (0, 40)], []⟩ : Contour).area < 2000 * 0.01
    ∧ some [(⟨10, 10⟩ : Point), ⟨30, 10⟩, ⟨30, 30⟩, ⟨10, 30⟩] ≠
        some (sortPoints (contourCandidate 1
          ⟨100, 4, [(0, 0), (50, 0), (50, 40), (0, 40)], []⟩)) := by
  refine ⟨?_, rfl, ?_, ?_⟩ <;> with_unfolding_all decide

/-- Vanishing of `waitForCV` when the engine never becomes ready during the
bounded polling window. -/
theorem waitForCV_false (availAt : ℕ → Bool) :
    ∀ (r t : ℕ), (∀ s, s ≤ t + r → availAt s = false) → waitForCV availAt t r = false
  | 0, t, h => by
    simpa [waitForCV] using h t (by omega)
  | r + 1, t, h => by
    have ht : availAt t = false := h t (by omega)
    simp only [waitForCV, ht, Bool.false_eq_true, if_false]
    exact waitForCV_false availAt r (t + 1) fun s hs => h s (by omega)

/-- C7: `detectDocumentCorners` never throws past its boundary — if the
engine is still unavailable after the full 100ms-spaced polling window of
`waitForCV` (300 retries), or the source image fails to decode, or the vision
pipeline raises, the call resolves to `none`. -/
theorem detectDocumentCorners_resolves_none (env : DetectEnv) :
    ((∀ t, t ≤ 300 → env.availAt t = false) → detectDocumentCorners env = none)
    ∧ (env.decodeOk = false → detectDocumentCorners env = none)
    ∧ (∀ e, env.pipeline = Except.error e → detectDocumentCorners env = none) := by
  refine ⟨?_, ?_, ?_⟩
  · intro h
    have hw : waitForCV env.availAt 0 300 = false :=
      waitForCV_false env.availAt 300 0 fun s hs => h s (by omega)
    simp [detectDocumentCorners, hw]
  · intro h
    by_cases hw : waitForCV env.availAt 0 300 <;> simp [detectDocumentCorners, hw, h]
  · intro e h
    by_cases hw : waitForCV env.availAt 0 300 <;>
      by_cases hd : env.decodeOk <;> simp [detectDocumentCorners, hw, hd, h]

/-- Witness for C7: an environment whose engine never loads, whose image does
not decode, and whose pipeline raises — detection resolves to `none`. -/
theorem detectDocumentCorners_resolves_none_witness :
    detectDocumentCorners ⟨fun _ => false, false, Except.error ()⟩ = none :=
  (detectDocumentCorners_resolves_none ⟨fun _ => false, false, Except.error ()⟩).1
    fun _ _ => rfl

/-- C8 (amended): when detection resolves `none`, the editor's
`handlePerformAutoDetection` substitutes the default 10%–90% inset
quadrilateral, but the batch caller `autoCropImage` instead returns the input
image unchanged — it does not crop to the inset quadrilateral. -/
theorem detection_none_fallbacks (env : DetectEnv) (natW natH : ℚ) (img : ImageVal)
    (h : detectDocumentCorners env = none) :
    handlePerformAutoDetection env natW natH = insetQuad natW natH
    ∧ autoCropImage env img = img := by
  constructor
  · simp [handlePerformAutoDetection, h]
  · simp [autoCropImage, h]

/-- Witness for C8 on a ready engine whose pipeline finds no contours (the
uniform-image case): the editor substitutes the inset quadrilateral and the
batch caller passes the image through. -/
theorem detection_none_fallbacks_witness :
    handlePerformAutoDetection ⟨fun _ => true, true, Except.ok none⟩ 1000 800 =
        insetQuad 1000 800
    ∧ autoCropImage ⟨fun _ => true, true, Except.ok none⟩ (.source 3) = ImageVal.source 3 :=
  detection_none_fallbacks ⟨fun _ => true, true, Except.ok none⟩ 1000 800 (.source 3) rfl

/-- Counterexample to C8 as stated: `autoCropImage` is a caller that receives
`none` from detection, yet it does not substitute the default inset
quadrilateral — it returns the input unchanged, which differs from the result
of cropping to the inset quadrilateral. -/
theorem autoCropImage_counterexample :
    autoCropImage ⟨fun _ => true, true, Except.ok none⟩ (.source 0) = ImageVal.source 0
    ∧ ImageVal.source 0 ≠
        applyPerspectiveCrop (.source 0) (insetQuad 1000 800) := by
  constructor
  · rfl
  · with_unfolding_all decide

/-- C9: during a corner drag, the pointer-move handler sets the dragged
corner to its drag-start snapshot plus the screen displacement scaled by
`naturalWidth / displayedWidth`, clamps both coordinates into
`[0, naturalWidth] × [0, naturalHeight]` (so a drag far beyond a border lands
exactly on the corresponding image edge/corner), and leaves the other three
corners at their snapshot values. -/
theorem handleWindowMouseMove_spec (initial : List Point) (idx : ℕ)
    (dragStart client : Point) (natW natH rectW : ℚ)
    (hidx : idx < initial.length) (hW : 0 ≤ natW) (hH : 0 ≤ natH) :
    (handleWindowMouseMove initial idx dragStart client natW natH rectW).getD idx ⟨0, 0⟩ =
        ⟨clampQ 0 natW ((initial.getD idx ⟨0, 0⟩).x +
            (client.x - dragStart.x) * (natW / rectW)),
         clampQ 0 natH ((initial.getD idx ⟨0, 0⟩).y +
            (client.y - dragStart.y) * (natW / rectW))⟩
    ∧ (∀ j, j ≠ idx →
        (handleWindowMouseMove initial idx dragStart client natW natH rectW).getD j ⟨0, 0⟩ =
          initial.getD j ⟨0, 0⟩)
    ∧ ((initial.getD idx ⟨0, 0⟩).x + (client.x - dragStart.x) * (natW / rectW) ≤ 0 →
        ((handleWindowMouseMove initial idx dragStart client natW natH rectW).getD
          idx ⟨0, 0⟩).x = 0)
    ∧ (natW ≤ (initial.getD idx ⟨0, 0⟩).x + (client.x - dragStart.x) * (natW / rectW) →
        ((handleWindowMouseMove initial idx dragStart client natW natH rectW).getD
          idx ⟨0, 0⟩).x = natW)
    ∧ ((initial.getD idx ⟨0, 0⟩).y + (client.y - dragStart.y) * (natW / rectW) ≤ 0 →
        ((handleWindowMouseMove initial idx dragStart client natW natH rectW).getD
          idx ⟨0, 0⟩).y = 0)
    ∧ (natH ≤ (initial.getD idx ⟨0, 0⟩).y + (client.y - dragStart.y) * (natW / rectW) →
        ((handleWindowMouseMove initial idx dragStart client natW natH rectW).getD
          idx ⟨0, 0⟩).y = natH) := by
  have hget : (handleWindowMouseMove initial idx dragStart client natW natH rectW).getD
      idx ⟨0, 0⟩ =
      ⟨clampQ 0 natW ((initial.getD idx ⟨0, 0⟩).x +
          (client.x - dragStart.x) * (natW / rectW)),
       clampQ 0 natH ((initial.getD idx ⟨0, 0⟩).y +
          (client.y - dragStart.y) * (natW / rectW))⟩ := by
    rw [handleWindowMouseMove, List.getD_eq_getElem?_getD,
      List.getElem?_set_self (by simpa using hidx)]
    rfl
  refine ⟨hget, ?_, ?_, ?_, ?_, ?_⟩
  · intro j hj
    rw [handleWindowMouseMove, List.getD_eq_getElem?_getD, List.getElem?_set_ne (Ne.symm hj),
      List.getD_eq_getElem?_getD]
  · intro hv
    rw [hget]
    exact max_eq_left (le_trans (min_le_right _ _) hv)
  · intro hv
    rw [hget]
    show clampQ 0 natW _ = natW
    rw [clampQ, min_eq_left hv]
    exact max_eq_right hW
  · intro hv
    rw [hget]
    exact max_eq_left (le_trans (min_le_right _ _) hv)
  · intro hv
    rw [hget]
    show clampQ 0 natH _ = natH
    rw [clampQ, min_eq_left hv]
    exact max_eq_right hH

/-- Witness for C9: dragging corner 2 of a 100×80 image far beyond the
bottom-right lands it exactly at (100, 80); the other corners keep their
snapshot values. -/
theorem handleWindowMouseMove_spec_witness :
    ((handleWindowMouseMove [⟨0, 0⟩, ⟨100, 0⟩, ⟨100, 80⟩, ⟨0, 80⟩] 2 ⟨50, 50⟩ ⟨5000, 5000⟩
        100 80 200).getD 2 ⟨0, 0⟩ =
        ⟨clampQ 0 100 (([(⟨0, 0⟩ : Point), ⟨100, 0⟩, ⟨100, 80⟩, ⟨0, 80⟩].getD 2 ⟨0, 0⟩).x +
            (((⟨5000, 5000⟩ : Point)).x - ((⟨50, 50⟩ : Point)).x) * ((100 : ℚ) / 200)),
         clampQ 0 80 (([(⟨0, 0⟩ : Point), ⟨100, 0⟩, ⟨100, 80⟩, ⟨0, 80⟩].getD 2 ⟨0, 0⟩).y +
            (((⟨5000, 5000⟩ : Point)).y - ((⟨50, 50⟩ : Point)).y) * ((100 : ℚ) / 200))⟩)
    ∧ (∀ j, j ≠ 2 →
        (handleWindowMouseMove [⟨0, 0⟩, ⟨100, 0⟩, ⟨100, 80⟩, ⟨0, 80⟩] 2 ⟨50, 50⟩ ⟨5000, 5000⟩
          100 80 200).getD j ⟨0, 0⟩ =
          [(⟨0, 0⟩ : Point), ⟨100, 0⟩, ⟨100, 80⟩, ⟨0, 80⟩].getD j ⟨0, 0⟩)
    ∧ (([(⟨0, 0⟩ : Point), ⟨100, 0⟩, ⟨100, 80⟩, ⟨0, 80⟩].getD 2 ⟨0, 0⟩).x +
          (((⟨5000, 5000⟩ : Point)).x - ((⟨50, 50⟩ : Point)).x) * ((100 : ℚ) / 200) ≤ 0 →
        ((handleWindowMouseMove [⟨0, 0⟩, ⟨100, 0⟩, ⟨100, 80⟩, ⟨0, 80⟩] 2 ⟨50, 50⟩ ⟨5000, 5000⟩
          100 80 200).getD 2 ⟨0, 0⟩).x = 0)
    ∧ ((100 : ℚ) ≤ ([(⟨0, 0⟩ : Point), ⟨100, 0⟩, ⟨100, 80⟩, ⟨0, 80⟩].getD 2 ⟨0, 0⟩).x +
          (((⟨5000, 5000⟩ : Point)).x - ((⟨50, 50⟩ : Point)).x) * ((100 : ℚ) / 200) →
        ((handleWindowMouseMove [⟨0, 0⟩, ⟨100, 0⟩, ⟨100, 80⟩, ⟨0, 80⟩] 2 ⟨50, 50⟩ ⟨5000, 5000⟩
          100 80 200).getD 2 ⟨0, 0⟩).x = 100)
    ∧ (([(⟨0, 0⟩ : Point), ⟨100, 0⟩, ⟨100, 80⟩, ⟨0, 80⟩].getD 2 ⟨0, 0⟩).y +
          (((⟨5000, 5000⟩ : Point)).y - ((⟨50, 50⟩ : Point)).y) * ((100 : ℚ) / 200) ≤ 0 →
        ((handleWindowMouseMove [⟨0, 0⟩, ⟨100, 0⟩, ⟨100, 80⟩, ⟨0, 80⟩] 2 ⟨50, 50⟩ ⟨5000, 5000⟩
          100 80 200).getD 2 ⟨0, 0⟩).y = 0)
    ∧ ((80 : ℚ) ≤ ([(⟨0, 0⟩ : Point), ⟨100, 0⟩, ⟨100, 80⟩, ⟨0, 80⟩].getD 2 ⟨0, 0⟩).y +
          (((⟨5000, 5000⟩ : Point)).y - ((⟨50, 50⟩ : Point)).y) * ((100 : ℚ) / 200) →
        ((handleWindowMouseMove [⟨0, 0⟩, ⟨100, 0⟩, ⟨100, 80⟩, ⟨0, 80⟩] 2 ⟨50, 50⟩ ⟨5000, 5000⟩
          100 80 200).getD 2 ⟨0, 0⟩).y = 80) :=
  handleWindowMouseMove_spec [⟨0, 0⟩, ⟨100, 0⟩, ⟨100, 80⟩, ⟨0, 80⟩] 2 ⟨50, 50⟩ ⟨5000, 5000⟩
    100 80 200 (by decide) (by with_unfolding_all decide) (by with_unfolding_all decide)

/-- C10 (amended): `applyImageAdjustments` with a 90°-multiple rotation sizes
the canvas to `(w·|cos θ| + h·|sin θ|, w·|sin θ| + h·|cos θ|)` (so nothing is
cropped), centres the source in it (translate to the canvas centre, draw at
minus half the image size), and with `rotationDegrees = 360` keeps the
original width and height — but it never fills the background: no fill
command is issued, so uncovered regions would be transparent, not white. -/
theorem applyImageAdjustments_spec (w h : ℚ) (b c rot : ℤ) (hrot : 90 ∣ rot) :
    (((applyImageAdjustments w h b c rot).canvasW : ℚ) : ℝ) =
        (w : ℝ) * |Real.cos ((rot : ℝ) * Real.pi / 180)| +
        (h : ℝ) * |Real.sin ((rot : ℝ) * Real.pi / 180)|
    ∧ (((applyImageAdjustments w h b c rot).canvasH : ℚ) : ℝ) =
        (w : ℝ) * |Real.sin ((rot : ℝ) * Real.pi / 180)| +
        (h : ℝ) * |Real.cos ((rot : ℝ) * Real.pi / 180)|
    ∧ (rot = 360 → (applyImageAdjustments w h b c rot).canvasW = w
        ∧ (applyImageAdjustments w h b c rot).canvasH = h)
    ∧ CanvasOp.translate ((applyImageAdjustments w h b c rot).canvasW / 2)
        ((applyImageAdjustments w h b c rot).canvasH / 2) ∈
          (applyImageAdjustments w h b c rot).ops
    ∧ CanvasOp.drawImage (-(w / 2)) (-(h / 2)) ∈ (applyImageAdjustments w h b c rot).ops
    ∧ ∀ x y fw fh col, CanvasOp.fillRect x y fw fh col ∉
        (applyImageAdjustments w h b c rot).ops := by
  refine ⟨?_, ?_, ?_, ?_, ?_, ?_⟩
  · show (((w * absCosDeg rot + h * absSinDeg rot : ℚ)) : ℝ) = _
    push_cast
    rw [absCosDeg_eq rot hrot, absSinDeg_eq rot hrot]
  · show (((w * absSinDeg rot + h * absCosDeg rot : ℚ)) : ℝ) = _
    push_cast
    rw [absCosDeg_eq rot hrot, absSinDeg_eq rot hrot]
  · rintro rfl
    constructor
    · show w * absCosDeg 360 + h * absSinDeg 360 = w
      norm_num [absCosDeg, absSinDeg]
    · show w * absSinDeg 360 + h * absCosDeg 360 = h
      norm_num [absCosDeg, absSinDeg]
  · simp [applyImageAdjustments]
  · simp [applyImageAdjustments]
  · intro x y fw fh col
    simp [applyImageAdjustments]

/-- Witness for C10 at a +90° rotation of a 100×80 image. -/
theorem applyImageAdjustments_spec_witness :
    (((applyImageAdjustments 100 80 100 100 90).canvasW : ℚ) : ℝ) =
        ((100 : ℚ) : ℝ) * |Real.cos (((90 : ℤ) : ℝ) * Real.pi / 180)| +
        ((80 : ℚ) : ℝ) * |Real.sin (((90 : ℤ) : ℝ) * Real.pi / 180)|
    ∧ (((applyImageAdjustments 100 80 100 100 90).canvasH : ℚ) : ℝ) =
        ((100 : ℚ) : ℝ) * |Real.sin (((90 : ℤ) : ℝ) * Real.pi / 180)| +
        ((80 : ℚ) : ℝ) * |Real.cos (((90 : ℤ) : ℝ) * Real.pi / 180)|
    ∧ ((90 : ℤ) = 360 → (applyImageAdjustments 100 80 100 100 90).canvasW = 100
        ∧ (applyImageAdjustments 100 80 100 100 90).canvasH = 80)
    ∧ CanvasOp.translate ((applyImageAdjustments 100 80 100 100 90).canvasW / 2)
        ((applyImageAdjustments 100 80 100 100 90).canvasH / 2) ∈
          (applyImageAdjustments 100 80 100 100 90).ops
    ∧ CanvasOp.drawImage (-((100 : ℚ) / 2)) (-((80 : ℚ) / 2)) ∈
        (applyImageAdjustments 100 80 100 100 90).ops
    ∧ ∀ x y fw fh col, CanvasOp.fillRect x y fw fh col ∉
        (applyImageAdjustments 100 80 100 100 90).ops :=
  applyImageAdjustments_spec 100 80 100 100 90 (by decide)

/-- Counterexample to C10 as stated: rotating a 100×80 image by 90° sizes the
canvas to 80×100 and issues no fill command at all — the "constant white
background" of the claim does not exist, and with `rotationDegrees = 360` the
canvas keeps the original 100×80 size. -/
theorem applyImageAdjustments_counterexample :
    (applyImageAdjustments 100 80 100 100 90).canvasW = 80
    ∧ (applyImageAdjustments 100 80 100 100 90).canvasH = 100
    ∧ (applyImageAdjustments 100 80 100 100 360).canvasW = 100
    ∧ (applyImageAdjustments 100 80 100 100 360).canvasH = 80
    ∧ ¬ ∃ op ∈ (applyImageAdjustments 100 80 100 100 90).ops, op.isFill = true := by
  refine ⟨?_, ?_, ?_, ?_, ?_⟩ <;> with_unfolding_all decide

end ArchiPdf
